import Mathlib

/-!
# Verification of the Teen Patti game core

Shallow embedding of the card-game backend: the deck/hand evaluator and the
round state machine (player actions, turn advancement, settlement), together
with theorems settling the specification claims about them.

Conventions of the embedding:
* JS numbers that hold chip amounts, bets and pots are modelled as `Int`
  (they are produced by integer additions and subtractions, and subtraction
  can go negative); indices and counts are `Nat`.
* Mongoose documents become plain structures; `Date` timestamps are dropped
  (no claim mentions them).
* Each socket handler is a pure function from the game state, the user table
  and the acting player's index to `Except String` of the successor state.
  An `Except.error msg` models the handler emitting `msg` over the socket and
  returning before any mutation, which is what every rejection path in the
  source does.
-/

/-- Suits, from the `suit` enum of the card schema. -/
inductive Suit where
  | hearts | diamonds | clubs | spades
deriving DecidableEq, Repr

/-- Ranks, from the `rank` enum of the card schema. -/
inductive Rank where
  | two | three | four | five | six | seven | eight | nine | ten
  | jack | queen | king | ace
deriving DecidableEq, Repr, Fintype

/-- A card, `{suit, rank}`. -/
structure Card where
  suit : Suit
  rank : Rank
deriving DecidableEq, Repr

/-- `getRankValue` of the Game model: `2..10 → 2..10, J=11, Q=12, K=13, A=14`. -/
def getRankValue : Rank → Nat
  | .two => 2
  | .three => 3
  | .four => 4
  | .five => 5
  | .six => 6
  | .seven => 7
  | .eight => 8
  | .nine => 9
  | .ten => 10
  | .jack => 11
  | .queen => 12
  | .king => 13
  | .ace => 14

/-- Sort three naturals ascending; `(lo, mid, hi)`.  Used to model the
`rankValues.sort(...)` calls of `evaluateHand` and `getHandValue`, which sort
the three numeric rank values. -/
def sort3 (a b c : Nat) : Nat × Nat × Nat :=
  if a ≤ b then
    if b ≤ c then (a, b, c)
    else if a ≤ c then (a, c, b)
    else (c, a, b)
  else
    if a ≤ c then (b, a, c)
    else if b ≤ c then (b, c, a)
    else (c, b, a)

/-- Lowest of the three rank values of a 3-card hand. -/
def lo3 (a b c : Card) : Nat :=
  (sort3 (getRankValue a.rank) (getRankValue b.rank) (getRankValue c.rank)).1

/-- Middle of the three rank values of a 3-card hand. -/
def mid3 (a b c : Card) : Nat :=
  (sort3 (getRankValue a.rank) (getRankValue b.rank) (getRankValue c.rank)).2.1

/-- Highest of the three rank values of a 3-card hand. -/
def hi3 (a b c : Card) : Nat :=
  (sort3 (getRankValue a.rank) (getRankValue b.rank) (getRankValue c.rank)).2.2

/-- Hand categories, from weakest to strongest. -/
inductive HandRank where
  | highCard | pair | color | sequence | pureSequence | trail
deriving DecidableEq, Repr, Fintype

/-- The `isSequence` boolean of `evaluateHand`: the ascending-sorted rank
values are consecutive. -/
def isSeq3 (a b c : Card) : Prop :=
  mid3 a b c = lo3 a b c + 1 ∧ hi3 a b c = mid3 a b c + 1

instance (a b c : Card) : Decidable (isSeq3 a b c) := by
  unfold isSeq3; infer_instance

/-- `evaluateHand(cards)` of the Game model.  The JS sorts the rank strings
before the trail and pair checks; since those checks compare all relevant
pairs for equality, the sort has no effect on them and is omitted here.
Any input that is not exactly three cards returns `high-card`, as in the
source. -/
def evaluateHand : List Card → HandRank
  | [a, b, c] =>
    if a.rank = b.rank ∧ b.rank = c.rank then .trail
    else if isSeq3 a b c ∧ a.suit = b.suit ∧ b.suit = c.suit then .pureSequence
    else if isSeq3 a b c then .sequence
    else if a.suit = b.suit ∧ b.suit = c.suit then .color
    else if a.rank = b.rank ∨ b.rank = c.rank ∨ a.rank = c.rank then .pair
    else .highCard
  | _ => .highCard

/-- `getHandValue(cards, handRank)` of the Game model.  `rankValues` sorted
descending is `(hi3, mid3, lo3)`.  In the `pair` branch the JS picks
`pairValue` as the first duplicated value of the descending list and
`kicker` as the first value different from it; with descending order
`(hi, mid, lo)` that is `hi` paired with kicker `lo` when `hi = mid`, and
`mid` paired with kicker `hi` when `mid = lo`.  When the rank is `pair` but
no two values are equal, or all three are equal, the JS arithmetic involves
`undefined` and yields `NaN`; those inputs are unreachable from
`evaluateHand` (which only labels a hand `pair` when exactly two ranks
match) and are mapped to the bare base value `2000` here.  Likewise inputs
that are not three cards (for which the JS produces `NaN`) are mapped
to `0`; `dealCards` only ever calls this with three cards. -/
def getHandValue (cards : List Card) (handRank : HandRank) : Nat :=
  match cards with
  | [a, b, c] =>
    match handRank with
    | .trail => 6000 + hi3 a b c
    | .pureSequence => 5000 + lo3 a b c
    | .sequence => 4000 + lo3 a b c
    | .color => 3000 + hi3 a b c * 100 + mid3 a b c * 10 + lo3 a b c
    | .pair =>
      if hi3 a b c = mid3 a b c then 2000 + hi3 a b c * 100 + lo3 a b c
      else if mid3 a b c = lo3 a b c then 2000 + mid3 a b c * 100 + hi3 a b c
      else 2000
    | .highCard => hi3 a b c * 100 + mid3 a b c * 10 + lo3 a b c
  | _ => 0

/-- A player's `handValue` as computed in `dealCards`:
`getHandValue(cards, evaluateHand(cards))`. -/
def handValueOf (cards : List Card) : Nat :=
  getHandValue cards (evaluateHand cards)

/-- Position of a category in the order
`high-card < pair < color < sequence < pure-sequence < trail`. -/
def catIdx : HandRank → Nat
  | .highCard => 0
  | .pair => 1
  | .color => 2
  | .sequence => 3
  | .pureSequence => 4
  | .trail => 5

/-- `createDeck()`: outer loop over suits, inner loop over ranks. -/
def createDeck : List Card :=
  [Suit.hearts, Suit.diamonds, Suit.clubs, Suit.spades].flatMap fun s =>
    [Rank.two, Rank.three, Rank.four, Rank.five, Rank.six, Rank.seven,
     Rank.eight, Rank.nine, Rank.ten, Rank.jack, Rank.queen, Rank.king,
     Rank.ace].map fun r => ⟨s, r⟩

example : createDeck.length = 52 := by decide
example : evaluateHand [⟨.hearts, .ace⟩, ⟨.hearts, .king⟩, ⟨.hearts, .jack⟩] = .color := by decide
example : handValueOf [⟨.hearts, .ace⟩, ⟨.hearts, .king⟩, ⟨.hearts, .jack⟩] = 4541 := by decide
example : evaluateHand [⟨.hearts, .two⟩, ⟨.diamonds, .three⟩, ⟨.clubs, .four⟩] = .sequence := by decide
example : handValueOf [⟨.hearts, .two⟩, ⟨.diamonds, .three⟩, ⟨.clubs, .four⟩] = 4002 := by decide
example : evaluateHand [⟨.hearts, .five⟩, ⟨.diamonds, .five⟩, ⟨.clubs, .nine⟩] = .pair := by decide
example : handValueOf [⟨.hearts, .five⟩, ⟨.diamonds, .five⟩, ⟨.clubs, .nine⟩] = 2509 := by decide

/-! ## Facts about the three-way sort used by the evaluator -/

lemma lmh_cases (a b c : Card) :
    (lo3 a b c = getRankValue a.rank ∧ mid3 a b c = getRankValue b.rank ∧ hi3 a b c = getRankValue c.rank) ∨
    (lo3 a b c = getRankValue a.rank ∧ mid3 a b c = getRankValue c.rank ∧ hi3 a b c = getRankValue b.rank) ∨
    (lo3 a b c = getRankValue c.rank ∧ mid3 a b c = getRankValue a.rank ∧ hi3 a b c = getRankValue b.rank) ∨
    (lo3 a b c = getRankValue b.rank ∧ mid3 a b c = getRankValue a.rank ∧ hi3 a b c = getRankValue c.rank) ∨
    (lo3 a b c = getRankValue b.rank ∧ mid3 a b c = getRankValue c.rank ∧ hi3 a b c = getRankValue a.rank) ∨
    (lo3 a b c = getRankValue c.rank ∧ mid3 a b c = getRankValue b.rank ∧ hi3 a b c = getRankValue a.rank) := by
  unfold lo3 mid3 hi3 sort3
  split_ifs <;> simp

lemma lmh_sorted (a b c : Card) :
    lo3 a b c ≤ mid3 a b c ∧ mid3 a b c ≤ hi3 a b c := by
  unfold lo3 mid3 hi3 sort3
  split_ifs <;> simp <;> omega

lemma getRankValue_le (r : Rank) : 2 ≤ getRankValue r ∧ getRankValue r ≤ 14 := by
  cases r <;> decide

lemma getRankValue_inj : ∀ r r' : Rank, getRankValue r = getRankValue r' → r = r' := by
  decide

lemma card_eq_of_suit_rank (a b : Card) (hs : a.suit = b.suit) (hr : a.rank = b.rank) :
    a = b := by
  cases a; cases b; cases hs; cases hr; rfl

/-! ## Value-range lemmas for each hand category -/

lemma handValue_highCard_le (a b c : Card) (hE : evaluateHand [a, b, c] = .highCard) :
    handValueOf [a, b, c] ≤ 1554 := by
  have hxb := getRankValue_le a.rank
  have hyb := getRankValue_le b.rank
  have hzb := getRankValue_le c.rank
  have hc := lmh_cases a b c
  unfold handValueOf
  rw [hE]
  simp only [getHandValue]
  omega

lemma handValue_pair_bounds (a b c : Card) (hE : evaluateHand [a, b, c] = .pair) :
    2202 ≤ handValueOf [a, b, c] ∧ handValueOf [a, b, c] ≤ 3413 := by
  have hxb := getRankValue_le a.rank
  have hyb := getRankValue_le b.rank
  have hzb := getRankValue_le c.rank
  have hc := lmh_cases a b c
  have hs := lmh_sorted a b c
  have hE0 := hE
  simp only [evaluateHand] at hE
  split_ifs at hE with h1 h2 h3 h4 h5
  have hP : getRankValue a.rank = getRankValue b.rank ∨
      getRankValue b.rank = getRankValue c.rank ∨
      getRankValue a.rank = getRankValue c.rank := by
    rcases h5 with h | h | h
    · exact Or.inl (by rw [h])
    · exact Or.inr (Or.inl (by rw [h]))
    · exact Or.inr (Or.inr (by rw [h]))
  have hT : ¬(getRankValue a.rank = getRankValue b.rank ∧
      getRankValue b.rank = getRankValue c.rank) := by
    intro hcontra
    exact h1 ⟨getRankValue_inj _ _ hcontra.1, getRankValue_inj _ _ hcontra.2⟩
  unfold handValueOf
  rw [hE0]
  simp only [getHandValue]
  split_ifs <;> omega

lemma handValue_color_le (a b c : Card) (hE : evaluateHand [a, b, c] = .color) :
    handValueOf [a, b, c] ≤ 4554 := by
  have hxb := getRankValue_le a.rank
  have hyb := getRankValue_le b.rank
  have hzb := getRankValue_le c.rank
  have hc := lmh_cases a b c
  unfold handValueOf
  rw [hE]
  simp only [getHandValue]
  omega

lemma handValue_color_ge (a b c : Card) (hE : evaluateHand [a, b, c] = .color)
    (hab : a ≠ b) (hbc : b ≠ c) (hac : a ≠ c) :
    3532 ≤ handValueOf [a, b, c] := by
  have hxb := getRankValue_le a.rank
  have hyb := getRankValue_le b.rank
  have hzb := getRankValue_le c.rank
  have hc := lmh_cases a b c
  have hs := lmh_sorted a b c
  have hE0 := hE
  simp only [evaluateHand] at hE
  split_ifs at hE with h1 h2 h3 h4
  -- same suits and distinct cards force pairwise distinct rank values
  have hsab : a.suit = b.suit := h4.1
  have hsbc : b.suit = c.suit := h4.2
  have hxy : getRankValue a.rank ≠ getRankValue b.rank := fun hv =>
    hab (card_eq_of_suit_rank a b hsab (getRankValue_inj _ _ hv))
  have hyz : getRankValue b.rank ≠ getRankValue c.rank := fun hv =>
    hbc (card_eq_of_suit_rank b c hsbc (getRankValue_inj _ _ hv))
  have hxz : getRankValue a.rank ≠ getRankValue c.rank := fun hv =>
    hac (card_eq_of_suit_rank a c (hsab.trans hsbc) (getRankValue_inj _ _ hv))
  simp only [isSeq3] at h3
  unfold handValueOf
  rw [hE0]
  simp only [getHandValue]
  omega

lemma handValue_sequence_bounds (a b c : Card) (hE : evaluateHand [a, b, c] = .sequence) :
    4002 ≤ handValueOf [a, b, c] ∧ handValueOf [a, b, c] ≤ 4012 := by
  have hxb := getRankValue_le a.rank
  have hyb := getRankValue_le b.rank
  have hzb := getRankValue_le c.rank
  have hc := lmh_cases a b c
  have hE0 := hE
  simp only [evaluateHand] at hE
  split_ifs at hE with h1 h2 h3
  simp only [isSeq3] at h3
  unfold handValueOf
  rw [hE0]
  simp only [getHandValue]
  omega

lemma handValue_pureSequence_bounds (a b c : Card)
    (hE : evaluateHand [a, b, c] = .pureSequence) :
    5002 ≤ handValueOf [a, b, c] ∧ handValueOf [a, b, c] ≤ 5012 := by
  have hxb := getRankValue_le a.rank
  have hyb := getRankValue_le b.rank
  have hzb := getRankValue_le c.rank
  have hc := lmh_cases a b c
  have hE0 := hE
  simp only [evaluateHand] at hE
  split_ifs at hE with h1 h2
  have h3 := h2.1
  simp only [isSeq3] at h3
  unfold handValueOf
  rw [hE0]
  simp only [getHandValue]
  omega

lemma handValue_trail_bounds (a b c : Card) (hE : evaluateHand [a, b, c] = .trail) :
    6002 ≤ handValueOf [a, b, c] ∧ handValueOf [a, b, c] ≤ 6014 := by
  have hxb := getRankValue_le a.rank
  have hyb := getRankValue_le b.rank
  have hzb := getRankValue_le c.rank
  have hc := lmh_cases a b c
  unfold handValueOf
  rw [hE]
  simp only [getHandValue]
  omega

/-- Numeric lower bound attained by `handValueOf` for each category
(for hands of three pairwise-distinct cards). -/
def catLo : HandRank → Nat
  | .highCard => 0
  | .pair => 2202
  | .color => 3532
  | .sequence => 4002
  | .pureSequence => 5002
  | .trail => 6002

/-- Numeric upper bound attained by `handValueOf` for each category. -/
def catHi : HandRank → Nat
  | .highCard => 1554
  | .pair => 3413
  | .color => 4554
  | .sequence => 4012
  | .pureSequence => 5012
  | .trail => 6014

lemma handValue_bounds (a b c : Card) (hab : a ≠ b) (hbc : b ≠ c) (hac : a ≠ c) :
    catLo (evaluateHand [a, b, c]) ≤ handValueOf [a, b, c] ∧
    handValueOf [a, b, c] ≤ catHi (evaluateHand [a, b, c]) := by
  cases hE : evaluateHand [a, b, c] <;> simp only [catLo, catHi]
  · exact ⟨Nat.zero_le _, handValue_highCard_le a b c hE⟩
  · exact handValue_pair_bounds a b c hE
  · exact ⟨handValue_color_ge a b c hE hab hbc hac, handValue_color_le a b c hE⟩
  · exact handValue_sequence_bounds a b c hE
  · exact handValue_pureSequence_bounds a b c hE
  · exact handValue_trail_bounds a b c hE

lemma catHi_lt_catLo : ∀ r1 r2 : HandRank, catIdx r1 < catIdx r2 →
    ¬(r1 = .color ∧ r2 = .sequence) → catHi r1 < catLo r2 := by
  decide

/-! ## Claim C1: category order versus `handValue` -/

/-- C1 (counterexample).  The claim states that for every pair of 3-card
hands whose evaluated categories differ, the hand in the higher category
(high-card < pair < color < sequence < pure-sequence < trail) has a strictly
greater `handValue`.  This is false: the color hand A-K-J of hearts has
`handValue` 4541 while the sequence hand 2-3-4 (mixed suits) — a strictly
higher category — has `handValue` 4002. -/
theorem C1_counterexample :
    evaluateHand [⟨.hearts, .ace⟩, ⟨.hearts, .king⟩, ⟨.hearts, .jack⟩] = .color ∧
    evaluateHand [⟨.hearts, .two⟩, ⟨.diamonds, .three⟩, ⟨.clubs, .four⟩] = .sequence ∧
    catIdx .color < catIdx .sequence ∧
    handValueOf [⟨.hearts, .two⟩, ⟨.diamonds, .three⟩, ⟨.clubs, .four⟩] <
      handValueOf [⟨.hearts, .ace⟩, ⟨.hearts, .king⟩, ⟨.hearts, .jack⟩] := by
  decide

/-- C1 (amended).  For 3-card hands of pairwise-distinct cards whose
evaluated categories differ, the hand in the higher category has a strictly
greater `handValue`, except for the single category pair (color, sequence):
a color hand can have a greater `handValue` than a sequence hand (the color
value range 3532–4554 overlaps the sequence range 4002–4012 from above). -/
theorem C1_amended (a1 b1 c1 a2 b2 c2 : Card)
    (hd1 : a1 ≠ b1 ∧ b1 ≠ c1 ∧ a1 ≠ c1) (hd2 : a2 ≠ b2 ∧ b2 ≠ c2 ∧ a2 ≠ c2)
    (hcat : catIdx (evaluateHand [a1, b1, c1]) < catIdx (evaluateHand [a2, b2, c2]))
    (hexc : ¬(evaluateHand [a1, b1, c1] = .color ∧ evaluateHand [a2, b2, c2] = .sequence)) :
    handValueOf [a1, b1, c1] < handValueOf [a2, b2, c2] := by
  have h1 := handValue_bounds a1 b1 c1 hd1.1 hd1.2.1 hd1.2.2
  have h2 := handValue_bounds a2 b2 c2 hd2.1 hd2.2.1 hd2.2.2
  have hlt := catHi_lt_catLo (evaluateHand [a1, b1, c1]) (evaluateHand [a2, b2, c2]) hcat hexc
  omega

/-- Witness for C1 (amended): the pair hand 5-5-9 (`handValue` 2509) versus
the color hand A-K-J of hearts (`handValue` 4541). -/
theorem C1_amended_witness :
    handValueOf [⟨.hearts, .five⟩, ⟨.diamonds, .five⟩, ⟨.clubs, .nine⟩] <
      handValueOf [⟨.hearts, .ace⟩, ⟨.hearts, .king⟩, ⟨.hearts, .jack⟩] :=
  C1_amended _ _ _ _ _ _ (by decide) (by decide) (by decide) (by decide)

/-! ## Game data model

Structures mirroring the mongoose Game schema (the fields the round logic
reads or writes; `Date` timestamps and cosmetic fields are omitted) and the
User documents touched by the socket handlers. -/

/-- The `status` enum of the Game schema. -/
inductive GameStatus where
  | waiting | active | completed | cancelled
deriving DecidableEq, Repr

/-- One entry of `gameHistory`, as pushed by `addToHistory`
(`{action, player, amount, details}`; the timestamp is omitted). -/
structure HistEntry where
  action : String
  player : Nat
  amount : Int
  details : String
deriving DecidableEq, Repr

/-- One element of `game.players`.  `user` is the player's user id. -/
structure Player where
  user : Nat
  position : Nat
  cards : List Card
  handRank : HandRank
  handValue : Nat
  isPlaying : Bool
  isFolded : Bool
  isBlind : Bool
  currentBet : Int
  totalBet : Int
  isAllIn : Bool
  lastAction : Option String
deriving DecidableEq, Repr

/-- The Game document (round-relevant fields). -/
structure Game where
  status : GameStatus
  maxPlayers : Nat
  minBet : Int
  maxBet : Int
  currentBet : Int
  pot : Int
  players : List Player
  currentPlayerIndex : Nat
  deck : List Card
  winner : Option Nat
  winningHand : Option HandRank
  gameHistory : List HistEntry
deriving DecidableEq, Repr

/-- The User fields read or written by the game flow (`updateChips` and the
stat updates of `endGame`). -/
structure UserSt where
  username : String
  chips : Int
  gamesPlayed : Nat
  gamesWon : Nat
  totalChipsWon : Int
  totalChipsLost : Int
  currentGameId : Option Nat
deriving DecidableEq, Repr

/-- Settlement ledger records created by `endGame` via the Transaction
model. -/
inductive Txn where
  | gameWin (user : Nat) (amount : Int)
  | commission (amount : Int)
  | gameLoss (user : Nat) (amount : Int)
deriving DecidableEq, Repr

/-- Result of one socket-handler invocation: the saved game, the user table
after any chip/stat updates, and the transactions created (non-empty only
when `endGame` ran). -/
structure Step where
  game : Game
  users : Nat → UserSt
  txns : List Txn

/-- Pointwise update of the user table at one id (models saving one User
document). -/
def updUser (users : Nat → UserSt) (uid : Nat) (f : UserSt → UserSt) : Nat → UserSt :=
  fun x => if x = uid then f (users x) else users x

/-- `addToHistory(action, playerId, amount, details)` of the Game model. -/
def addToHistory (g : Game) (action : String) (playerId : Nat) (amount : Int)
    (details : String) : Game :=
  { g with gameHistory := g.gameHistory ++ [⟨action, playerId, amount, details⟩] }

/-- The `!p.isFolded && p.isPlaying` predicate used to collect active
players. -/
def playerActive (p : Player) : Bool :=
  !p.isFolded && p.isPlaying

/-! ## `determineWinner` (claim C10) -/

/-- The comparison step of the `forEach` in `determineWinner`: the running
winner is replaced only when the candidate's `handValue` is strictly
greater. -/
def pickBetter (w q : Player) : Player :=
  if q.handValue > w.handValue then q else w

/-- `determineWinner()` of the Game model.  The source's early return of
`activePlayers[0]` when exactly one active player remains is subsumed by the
fold (whose tail is then empty); with no active players the source would
return `undefined`, modelled as `none`. -/
def determineWinner (g : Game) : Option Player :=
  match g.players.filter playerActive with
  | [] => none
  | p :: ps => some (ps.foldl pickBetter p)

lemma le_foldl_pickBetter (p : Player) (ps : List Player) :
    p.handValue ≤ (ps.foldl pickBetter p).handValue := by
  induction ps generalizing p with
  | nil => simp
  | cons q ps ih =>
    simp only [List.foldl]
    have h1 : p.handValue ≤ (pickBetter p q).handValue := by
      unfold pickBetter; split_ifs <;> omega
    exact le_trans h1 (ih _)

lemma foldl_pickBetter_split (p : Player) (ps : List Player) :
    ∃ l1 l2, p :: ps = l1 ++ (ps.foldl pickBetter p) :: l2 ∧
      (∀ q ∈ l1, q.handValue < (ps.foldl pickBetter p).handValue) ∧
      (∀ q ∈ l2, q.handValue ≤ (ps.foldl pickBetter p).handValue) := by
  induction ps generalizing p with
  | nil => exact ⟨[], [], rfl, by simp, by simp⟩
  | cons q ps ih =>
    simp only [List.foldl]
    by_cases h : q.handValue > p.handValue
    · have hpb : pickBetter p q = q := by unfold pickBetter; rw [if_pos h]
      rw [hpb]
      obtain ⟨l1, l2, heq, hl1, hl2⟩ := ih q
      refine ⟨p :: l1, l2, by rw [List.cons_append, ← heq], ?_, hl2⟩
      intro r hr
      rcases List.mem_cons.1 hr with rfl | hr'
      · exact lt_of_lt_of_le h (le_foldl_pickBetter q ps)
      · exact hl1 r hr'
    · have hpb : pickBetter p q = p := by unfold pickBetter; rw [if_neg h]
      rw [hpb]
      obtain ⟨l1, l2, heq, hl1, hl2⟩ := ih p
      cases l1 with
      | nil =>
        simp only [List.nil_append] at heq
        refine ⟨[], q :: l2, ?_, by simp, ?_⟩
        · rw [List.nil_append]
          rw [List.cons.injEq] at heq
          rw [← heq.1, ← heq.2]
        · intro r hr
          rcases List.mem_cons.1 hr with rfl | hr'
          · rw [List.cons.injEq] at heq
            rw [← heq.1]
            omega
          · exact hl2 r hr'
      | cons x l1' =>
        simp only [List.cons_append, List.cons.injEq] at heq
        obtain ⟨hx, hps⟩ := heq
        refine ⟨p :: q :: l1', l2, ?_, ?_, hl2⟩
        · simp only [List.cons_append]
          rw [← hps]
        · intro r hr
          have hxlt : x.handValue < (ps.foldl pickBetter p).handValue :=
            hl1 x (List.mem_cons_self x l1')
          rcases List.mem_cons.1 hr with rfl | hr'
          · rw [← hx] at hxlt; exact hxlt
          · rcases List.mem_cons.1 hr' with rfl | hr''
            · rw [← hx] at hxlt; omega
            · exact hl1 r (List.mem_cons_of_mem x hr'')

/-- C10.  Among the non-folded, still-playing players (in seat order),
`determineWinner` returns the first player attaining the maximal
`handValue`: every earlier active player has a strictly smaller value and
every later one a value no greater, so ties go to the lowest seat position
and a single winner is always selected (the pot is never split). -/
theorem C10_determineWinner_first_max (g : Game) (w : Player)
    (hw : determineWinner g = some w) :
    ∃ l1 l2, g.players.filter playerActive = l1 ++ w :: l2 ∧
      (∀ q ∈ l1, q.handValue < w.handValue) ∧
      (∀ q ∈ l2, q.handValue ≤ w.handValue) := by
  unfold determineWinner at hw
  cases hfil : g.players.filter playerActive with
  | nil => rw [hfil] at hw; cases hw
  | cons p ps =>
    rw [hfil] at hw
    simp only [Option.some.injEq] at hw
    rw [← hw]
    exact foldl_pickBetter_split p ps

/-- A baseline player record with the schema defaults. -/
def pNil : Player :=
  { user := 0, position := 0, cards := [], handRank := .highCard, handValue := 0,
    isPlaying := true, isFolded := false, isBlind := true, currentBet := 0,
    totalBet := 0, isAllIn := false, lastAction := none }

/-- A baseline game record with the schema defaults (sample betting limits,
since `minBet`/`maxBet` are required fields without defaults). -/
def g0 : Game :=
  { status := .waiting, maxPlayers := 6, minBet := 10, maxBet := 1000,
    currentBet := 0, pot := 0, players := [], currentPlayerIndex := 0,
    deck := [], winner := none, winningHand := none, gameHistory := [] }

/-- A baseline user table. -/
def usersNil : Nat → UserSt :=
  fun _ => { username := "player", chips := 100, gamesPlayed := 0, gamesWon := 0,
             totalChipsWon := 0, totalChipsLost := 0, currentGameId := none }

/-- Concrete game for the C10 witness: seats 0..3 with hand values 5, 100
(folded), 9, 9; the winner must be seat 2, the first of the two tied active
maxima. -/
def gC10 : Game :=
  { g0 with status := .active, players :=
      [{ pNil with user := 1, position := 0, handValue := 5 },
       { pNil with user := 2, position := 1, handValue := 100, isFolded := true, isPlaying := false },
       { pNil with user := 3, position := 2, handValue := 9 },
       { pNil with user := 4, position := 3, handValue := 9 }] }

/-- The expected C10 winner: the seat-2 player. -/
def wC10 : Player := { pNil with user := 3, position := 2, handValue := 9 }

/-- Witness for C10 at a concrete game with a tie: `determineWinner` picks
the first (lowest-seat) player with the maximal hand value. -/
theorem C10_witness :
    determineWinner gC10 = some wC10 ∧
    ∃ l1 l2, gC10.players.filter playerActive = l1 ++ wC10 :: l2 ∧
      (∀ q ∈ l1, q.handValue < wC10.handValue) ∧
      (∀ q ∈ l2, q.handValue ≤ wC10.handValue) :=
  ⟨by decide, C10_determineWinner_first_max gC10 wC10 (by decide)⟩

/-! ## Turn advancement -/

/-- The `while` loop of `moveToNextPlayer`, with explicit fuel: step
`(idx + 1) % players.length` until the seat is neither folded nor inactive.
`players.length` steps of fuel always suffice when an active seat exists,
and `moveToNextPlayer` only scans under that guard, so the fuel-exhausted
value is never reached (the JS loop would simply not terminate without an
active seat).  The out-of-range case is likewise unreachable since every
scanned index is reduced modulo the length. -/
def scanActive (ps : List Player) : Nat → Nat → Nat
  | idx, 0 => idx
  | idx, fuel + 1 =>
    match ps[idx]? with
    | some p => if playerActive p then idx else scanActive ps ((idx + 1) % ps.length) fuel
    | none => idx

/-- `moveToNextPlayer(game)`: no-op when at most one active player remains,
otherwise advance `currentPlayerIndex` circularly to the next non-folded,
still-playing seat. -/
def moveToNextPlayer (g : Game) : Game :=
  if (g.players.filter playerActive).length ≤ 1 then g
  else
    { g with
      currentPlayerIndex :=
        scanActive g.players ((g.currentPlayerIndex + 1) % g.players.length)
          g.players.length }

/-! ## Settlement -/

/-- One iteration of the game-loss `Promise.all` at the end of `endGame`:
for each non-winning player with a positive `totalBet`,
`Transaction.createGameLossTransaction` runs `createTransaction`, which
reads the player's current chips, computes `balanceAfter = chips − amount`,
throws `Insufficient balance` when that is negative — in which case neither
the balance write nor the transaction record happens for that player (the
other, independent loss promises still run) — and otherwise writes the
reduced balance back via `User.findByIdAndUpdate` and saves the
`game_loss` record. -/
def lossStep (wuser : Nat) (acc : (Nat → UserSt) × List Txn) (p : Player) :
    (Nat → UserSt) × List Txn :=
  if p.user ≠ wuser ∧ p.totalBet > 0 then
    if (acc.1 p.user).chips - p.totalBet < 0 then acc
    else
      (updUser acc.1 p.user fun u => { u with chips := u.chips - p.totalBet },
       acc.2 ++ [Txn.gameLoss p.user p.totalBet])
  else acc

/-- `endGame(game, winner)`: marks the game completed, computes the 3%
commission, credits the winner, updates every player's statistics and
creates the settlement transactions.  The default commission rate 0.03 is
modelled as the exact rational 3/100 (`Math.floor(pot * 0.03)` agrees with
`⌊3·pot/100⌋` for the non-negative pots arising here); the stats loop
reloads each player's User document, so the winner's `gamesPlayed` is
incremented twice, exactly as in the source.

The `Transaction.createTransaction` calls do more than record:
`createGameWinTransaction` reads the winner's then-current chips (already
credited once by `updateChips(winnings, 'add')`), computes
`balanceAfter = chips + winnings` and writes it back through
`User.findByIdAndUpdate`, so the winner's balance rises by `2·winnings` in
total; `createCommissionTransaction` only saves a record (no user, no
balance write); and each `createGameLossTransaction` debits that player's
`totalBet` again, as modelled by `lossStep`.  A thrown
`Insufficient balance` would also skip the final `game.save()` and the
broadcasts, which are outside this model's observations; all balance
writes up to that point persist. -/
def endGame (g : Game) (winner : Player) (users : Nat → UserSt) : Step :=
  let commission : Int := g.pot * 3 / 100
  let winnings : Int := g.pot - commission
  let g' :=
    { g with
      status := .completed
      winner := some winner.user
      winningHand := some winner.handRank }
  let users1 := updUser users winner.user fun u =>
    { u with
      chips := u.chips + winnings
      gamesWon := u.gamesWon + 1
      gamesPlayed := u.gamesPlayed + 1
      totalChipsWon := u.totalChipsWon + winnings }
  let users2 := g.players.foldl (fun us p =>
    updUser us p.user fun u =>
      { u with
        gamesPlayed := u.gamesPlayed + 1
        totalChipsLost :=
          if p.user ≠ winner.user then u.totalChipsLost + p.totalBet
          else u.totalChipsLost
        currentGameId := none }) users1
  let users3 := updUser users2 winner.user fun u => { u with chips := u.chips + winnings }
  let res := g.players.foldl (lossStep winner.user) (users3, [])
  { game := g'
    users := res.1
    txns := Txn.gameWin winner.user winnings :: Txn.commission commission :: res.2 }

/-! ## Socket action handlers

Each handler mirrors one `handleX` function of the socket layer.  The
explicit balance check in the source always precedes the
`updateChips(amount, 'subtract')` call, whose own insufficient-chips guard
can therefore never fire; chip deduction is modelled as the direct
subtraction.  An out-of-range player index would make the JS handler throw
on a property access of `undefined`, caught by the generic handler as the
message modelled in the `none` branch. -/

/-- `handleFold`. -/
def handleFold (g : Game) (users : Nat → UserSt) (i : Nat) : Except String Step :=
  match g.players[i]? with
  | none => .error "Failed to process action"
  | some p =>
    let p' := { p with isFolded := true, isPlaying := false, lastAction := some "fold" }
    let g1 := addToHistory { g with players := g.players.set i p' } "fold" p.user 0
      ((users p.user).username ++ " folded")
    match g1.players.filter playerActive with
    | [w] => .ok (endGame g1 w users)
    | _ => .ok { game := moveToNextPlayer g1, users := users, txns := [] }

/-- `handleCall`. -/
def handleCall (g : Game) (users : Nat → UserSt) (i : Nat) : Except String Step :=
  match g.players[i]? with
  | none => .error "Failed to process action"
  | some p =>
    let callAmount := g.currentBet - p.currentBet
    if (users p.user).chips < callAmount then .error "Insufficient chips to call"
    else
      let users' := updUser users p.user fun u => { u with chips := u.chips - callAmount }
      let p' :=
        { p with
          currentBet := p.currentBet + callAmount
          totalBet := p.totalBet + callAmount
          lastAction := some "call" }
      let g1 := addToHistory
        { g with players := g.players.set i p', pot := g.pot + callAmount }
        "call" p.user callAmount
        ((users p.user).username ++ " called " ++ toString callAmount)
      .ok { game := moveToNextPlayer g1, users := users', txns := [] }

/-- `handleRaise`. -/
def handleRaise (g : Game) (users : Nat → UserSt) (i : Nat) (raiseAmount : Int) :
    Except String Step :=
  match g.players[i]? with
  | none => .error "Failed to process action"
  | some p =>
    if raiseAmount < g.minBet ∨ raiseAmount > g.maxBet then
      .error ("Raise amount must be between " ++ toString g.minBet ++ " and "
        ++ toString g.maxBet)
    else
      let totalRequired := g.currentBet - p.currentBet + raiseAmount
      if (users p.user).chips < totalRequired then .error "Insufficient chips to raise"
      else
        let users' := updUser users p.user fun u => { u with chips := u.chips - totalRequired }
        let p' :=
          { p with
            currentBet := p.currentBet + totalRequired
            totalBet := p.totalBet + totalRequired
            lastAction := some "raise" }
        let g1 := addToHistory
          { g with
            players := g.players.set i p'
            currentBet := g.currentBet + raiseAmount
            pot := g.pot + totalRequired }
          "raise" p.user totalRequired
          ((users p.user).username ++ " raised by " ++ toString raiseAmount)
        .ok { game := moveToNextPlayer g1, users := users', txns := [] }

/-- `handleCheck`. -/
def handleCheck (g : Game) (users : Nat → UserSt) (i : Nat) : Except String Step :=
  match g.players[i]? with
  | none => .error "Failed to process action"
  | some p =>
    if g.currentBet > p.currentBet then .error "Cannot check - must call or raise"
    else
      let p' := { p with lastAction := some "check" }
      let g1 := addToHistory { g with players := g.players.set i p' } "check" p.user 0
        ((users p.user).username ++ " checked")
      .ok { game := moveToNextPlayer g1, users := users, txns := [] }

/-- `handleShow`: reveals the cards and logs the action.  Note that, unlike
every other handler, the source never calls `moveToNextPlayer` here. -/
def handleShow (g : Game) (users : Nat → UserSt) (i : Nat) : Except String Step :=
  match g.players[i]? with
  | none => .error "Failed to process action"
  | some p =>
    let p' := { p with isBlind := false, lastAction := some "show" }
    let g1 := addToHistory { g with players := g.players.set i p' } "show" p.user 0
      ((users p.user).username ++ " showed cards")
    .ok { game := g1, users := users, txns := [] }

/-- `handleBlind`. -/
def handleBlind (g : Game) (users : Nat → UserSt) (i : Nat) : Except String Step :=
  match g.players[i]? with
  | none => .error "Failed to process action"
  | some p =>
    let blindAmount := g.minBet
    if (users p.user).chips < blindAmount then .error "Insufficient chips for blind bet"
    else
      let users' := updUser users p.user fun u => { u with chips := u.chips - blindAmount }
      let p' :=
        { p with
          currentBet := p.currentBet + blindAmount
          totalBet := p.totalBet + blindAmount
          lastAction := some "blind"
          isBlind := true }
      let g1 := addToHistory
        { g with
          players := g.players.set i p'
          pot := g.pot + blindAmount
          currentBet := if blindAmount > g.currentBet then blindAmount else g.currentBet }
        "blind" p.user blindAmount
        ((users p.user).username ++ " played blind for " ++ toString blindAmount)
      .ok { game := moveToNextPlayer g1, users := users', txns := [] }

/-- The recognized values of the `action` field of a `game_action` message
(an unrecognized string is rejected before dispatch and is not modelled). -/
inductive GameAction where
  | fold | call | raise (amount : Int) | check | showCards | blind
deriving DecidableEq

/-- The `action` string recorded for each action. -/
def actionName : GameAction → String
  | .fold => "fold"
  | .call => "call"
  | .raise _ => "raise"
  | .check => "check"
  | .showCards => "show"
  | .blind => "blind"

/-- `Array.prototype.findIndex`, with `-1` modelled as `none`. -/
def findIndex (pred : Player → Bool) : List Player → Option Nat
  | [] => none
  | p :: ps => if pred p then some 0 else (findIndex pred ps).map (· + 1)

/-- `handleGameAction`: resolve the acting player's seat index by user id,
reject when absent or out of turn, then dispatch on the action. -/
def handleGameAction (g : Game) (users : Nat → UserSt) (uid : Nat) (act : GameAction) :
    Except String Step :=
  match findIndex (fun p => p.user == uid) g.players with
  | none => .error "You are not in this game"
  | some i =>
    if g.currentPlayerIndex ≠ i then .error "Not your turn"
    else
      match act with
      | .fold => handleFold g users i
      | .call => handleCall g users i
      | .raise amount => handleRaise g users i amount
      | .check => handleCheck g users i
      | .showCards => handleShow g users i
      | .blind => handleBlind g users i

/-! ## Pot/bet accounting (claim C2) -/

/-- Sum of `totalBet` over a player list. -/
def sumTotalBet (ps : List Player) : Int :=
  (ps.map Player.totalBet).sum

lemma sumTotalBet_set (ps : List Player) (i : Nat) (p p' : Player)
    (h : ps[i]? = some p) :
    sumTotalBet (ps.set i p') = sumTotalBet ps - p.totalBet + p'.totalBet := by
  induction ps generalizing i with
  | nil => simp at h
  | cons q qs ih =>
    cases i with
    | zero =>
      simp only [List.getElem?_cons_zero, Option.some.injEq] at h
      subst h
      simp only [List.set_cons_zero, sumTotalBet, List.map_cons, List.sum_cons]
      ring
    | succ j =>
      simp only [List.getElem?_cons_succ] at h
      simp only [List.set_cons_succ, sumTotalBet, List.map_cons, List.sum_cons]
      have := ih j h
      simp only [sumTotalBet] at this
      omega

lemma moveToNextPlayer_players (g : Game) : (moveToNextPlayer g).players = g.players := by
  unfold moveToNextPlayer; split_ifs <;> rfl

lemma moveToNextPlayer_pot (g : Game) : (moveToNextPlayer g).pot = g.pot := by
  unfold moveToNextPlayer; split_ifs <;> rfl

lemma moveToNextPlayer_gameHistory (g : Game) :
    (moveToNextPlayer g).gameHistory = g.gameHistory := by
  unfold moveToNextPlayer; split_ifs <;> rfl

lemma moveToNextPlayer_status (g : Game) : (moveToNextPlayer g).status = g.status := by
  unfold moveToNextPlayer; split_ifs <;> rfl

lemma findIndex_spec (pred : Player → Bool) (l : List Player) (i : Nat)
    (h : findIndex pred l = some i) : ∃ p, l[i]? = some p ∧ pred p = true := by
  induction l generalizing i with
  | nil => simp [findIndex] at h
  | cons q qs ih =>
    unfold findIndex at h
    split_ifs at h with hq
    · simp only [Option.some.injEq] at h
      subst h
      exact ⟨q, by simp, hq⟩
    · cases hfi : findIndex pred qs with
      | none => rw [hfi] at h; simp at h
      | some j =>
        rw [hfi] at h
        simp only [Option.map_some', Option.some.injEq] at h
        obtain ⟨p, hp, hpred⟩ := ih j hfi
        subst h
        exact ⟨p, by simpa [List.getElem?_cons_succ] using hp, hpred⟩

lemma pot_pres_fold (g : Game) (users : Nat → UserSt) (i : Nat) (st : Step)
    (h : handleFold g users i = .ok st) (hpot : g.pot = sumTotalBet g.players) :
    st.game.pot = sumTotalBet st.game.players := by
  unfold handleFold at h
  split at h
  · cases h
  · rename_i p hp
    dsimp only at h
    split at h
    · cases h
      simp only [endGame, addToHistory]
      rw [sumTotalBet_set g.players i _ _ hp]
      dsimp only
      omega
    · cases h
      rw [moveToNextPlayer_pot, moveToNextPlayer_players]
      simp only [addToHistory]
      rw [sumTotalBet_set g.players i _ _ hp]
      dsimp only
      omega

lemma pot_pres_call (g : Game) (users : Nat → UserSt) (i : Nat) (st : Step)
    (h : handleCall g users i = .ok st) (hpot : g.pot = sumTotalBet g.players) :
    st.game.pot = sumTotalBet st.game.players := by
  unfold handleCall at h
  split at h
  · cases h
  · rename_i p hp
    dsimp only at h
    split at h
    · cases h
    · cases h
      rw [moveToNextPlayer_pot, moveToNextPlayer_players]
      simp only [addToHistory]
      rw [sumTotalBet_set g.players i _ _ hp]
      dsimp only
      omega

lemma pot_pres_raise (g : Game) (users : Nat → UserSt) (i : Nat) (a : Int) (st : Step)
    (h : handleRaise g users i a = .ok st) (hpot : g.pot = sumTotalBet g.players) :
    st.game.pot = sumTotalBet st.game.players := by
  unfold handleRaise at h
  split at h
  · cases h
  · rename_i p hp
    dsimp only at h
    split at h
    · cases h
    · split at h
      · cases h
      · cases h
        rw [moveToNextPlayer_pot, moveToNextPlayer_players]
        simp only [addToHistory]
        rw [sumTotalBet_set g.players i _ _ hp]
        dsimp only
        omega

lemma pot_pres_check (g : Game) (users : Nat → UserSt) (i : Nat) (st : Step)
    (h : handleCheck g users i = .ok st) (hpot : g.pot = sumTotalBet g.players) :
    st.game.pot = sumTotalBet st.game.players := by
  unfold handleCheck at h
  split at h
  · cases h
  · rename_i p hp
    dsimp only at h
    split at h
    · cases h
    · cases h
      rw [moveToNextPlayer_pot, moveToNextPlayer_players]
      simp only [addToHistory]
      rw [sumTotalBet_set g.players i _ _ hp]
      dsimp only
      omega

lemma pot_pres_show (g : Game) (users : Nat → UserSt) (i : Nat) (st : Step)
    (h : handleShow g users i = .ok st) (hpot : g.pot = sumTotalBet g.players) :
    st.game.pot = sumTotalBet st.game.players := by
  unfold handleShow at h
  split at h
  · cases h
  · rename_i p hp
    dsimp only at h
    cases h
    simp only [addToHistory]
    rw [sumTotalBet_set g.players i _ _ hp]
    dsimp only
    omega

lemma pot_pres_blind (g : Game) (users : Nat → UserSt) (i : Nat) (st : Step)
    (h : handleBlind g users i = .ok st) (hpot : g.pot = sumTotalBet g.players) :
    st.game.pot = sumTotalBet st.game.players := by
  unfold handleBlind at h
  split at h
  · cases h
  · rename_i p hp
    dsimp only at h
    split at h
    · cases h
    · cases h
      rw [moveToNextPlayer_pot, moveToNextPlayer_players]
      simp only [addToHistory]
      rw [sumTotalBet_set g.players i _ _ hp]
      dsimp only
      omega

/-- C2 (amended).  In an active game, the invariant `pot = Σ totalBet` is
preserved by every action (fold, call, raise, check, show, blind): each
chip-moving action changes the acting player's `currentBet`, `totalBet` and
the pot by the same amount.  The original claim's further assertion that
this amount is always an increase — that no action decreases the pot — is
false (see the counterexample): when the acting player's `currentBet`
exceeds the table `currentBet`, the call amount `currentBet − player.currentBet`
is negative and a successful call refunds chips and shrinks the pot. -/
theorem C2_amended (g : Game) (users : Nat → UserSt) (uid : Nat) (act : GameAction)
    (hact : g.status = .active) (hpot : g.pot = sumTotalBet g.players) :
    match handleGameAction g users uid act with
    | .ok st => st.game.pot = sumTotalBet st.game.players
    | .error _ => True := by
  unfold handleGameAction
  cases hfi : findIndex (fun p => p.user == uid) g.players with
  | none => trivial
  | some i =>
    dsimp only
    by_cases hturn : g.currentPlayerIndex ≠ i
    · rw [if_pos hturn]
      trivial
    · rw [if_neg hturn]
      cases act with
      | fold =>
        dsimp only
        cases hh : handleFold g users i with
        | error e => trivial
        | ok st => exact pot_pres_fold g users i st hh hpot
      | call =>
        dsimp only
        cases hh : handleCall g users i with
        | error e => trivial
        | ok st => exact pot_pres_call g users i st hh hpot
      | raise amount =>
        dsimp only
        cases hh : handleRaise g users i amount with
        | error e => trivial
        | ok st => exact pot_pres_raise g users i amount st hh hpot
      | check =>
        dsimp only
        cases hh : handleCheck g users i with
        | error e => trivial
        | ok st => exact pot_pres_check g users i st hh hpot
      | showCards =>
        dsimp only
        cases hh : handleShow g users i with
        | error e => trivial
        | ok st => exact pot_pres_show g users i st hh hpot
      | blind =>
        dsimp only
        cases hh : handleBlind g users i with
        | error e => trivial
        | ok st => exact pot_pres_blind g users i st hh hpot

/-- Active game in which the seat-0 player's `currentBet` (20) exceeds the
table `currentBet` (10); such states are reachable because `handleBlind`
raises a player's bet without always raising the table bet. -/
def gC2 : Game :=
  { g0 with
    status := .active
    pot := 30
    currentBet := 10
    players :=
      [{ pNil with user := 5, currentBet := 20, totalBet := 20 },
       { pNil with user := 7, position := 1, currentBet := 10, totalBet := 10 }] }

/-- C2 (counterexample).  The claim asserts that no action decreases the
pot; but in `gC2` (active, pot 30 = Σ totalBet) a successful call by the
seat-0 player has call amount 10 − 20 = −10 and leaves the pot at 20 < 30. -/
theorem C2_counterexample :
    gC2.status = .active ∧ gC2.pot = 30 ∧ gC2.pot = sumTotalBet gC2.players ∧
    (handleGameAction gC2 usersNil 5 .call).map (fun st => st.game.pot) = .ok 20 := by
  refine ⟨rfl, rfl, by decide, ?_⟩
  rfl

/-- Witness for C2 (amended) at the concrete game `gC2`: the call succeeds
and the preserved invariant `pot = Σ totalBet` holds afterwards. -/
theorem C2_amended_witness :
    gC2.status = .active ∧ gC2.pot = sumTotalBet gC2.players ∧
    (match handleGameAction gC2 usersNil 5 .call with
     | .ok st => st.game.pot = sumTotalBet st.game.players
     | .error _ => True) :=
  ⟨rfl, by decide, C2_amended gC2 usersNil 5 .call rfl (by decide)⟩

/-! ## Turn-advancement characterization (claim C4) -/

/-- Whether the seat at index `i` holds a non-folded, still-playing player. -/
def activeAtB (ps : List Player) (i : Nat) : Bool :=
  (ps[i]?.map playerActive).getD false

lemma scanActive_spec (ps : List Player) :
    ∀ fuel s, s < ps.length →
      (∃ k, k < fuel ∧ activeAtB ps ((s + k) % ps.length) = true) →
      ∃ k, k < fuel ∧ scanActive ps s fuel = (s + k) % ps.length ∧
        activeAtB ps ((s + k) % ps.length) = true ∧
        ∀ t, t < k → activeAtB ps ((s + t) % ps.length) = false := by
  intro fuel
  induction fuel with
  | zero =>
    intro s hs hex
    obtain ⟨k, hk, _⟩ := hex
    omega
  | succ fuel ih =>
    intro s hs hex
    have hmods : s % ps.length = s := Nat.mod_eq_of_lt hs
    have hlen : 0 < ps.length := by omega
    obtain ⟨p, hp⟩ : ∃ p, ps[s]? = some p := by
      rw [List.getElem?_eq_getElem hs]
      exact ⟨_, rfl⟩
    cases hA : playerActive p with
    | true =>
      refine ⟨0, Nat.succ_pos _, ?_, ?_, fun t ht => by omega⟩
      · unfold scanActive
        rw [hp]
        dsimp only
        rw [hA, if_pos rfl, Nat.add_zero, hmods]
      · rw [Nat.add_zero, hmods]
        simp [activeAtB, hp, hA]
    | false =>
      have hAb : activeAtB ps s = false := by simp [activeAtB, hp, hA]
      obtain ⟨k, hk, hact⟩ := hex
      have hk0 : k ≠ 0 := by
        intro h0
        subst h0
        rw [Nat.add_zero, hmods] at hact
        rw [hAb] at hact
        cases hact
      have hs' : (s + 1) % ps.length < ps.length := Nat.mod_lt _ hlen
      have hmod : ∀ t : Nat, ((s + 1) % ps.length + t) % ps.length = (s + 1 + t) % ps.length :=
        fun t => Nat.mod_add_mod (s + 1) ps.length t
      obtain ⟨k', hk', hres, hact', hskip'⟩ := ih ((s + 1) % ps.length) hs' ⟨k - 1, by omega, by
        rw [hmod]
        have : s + 1 + (k - 1) = s + k := by omega
        rw [this]
        exact hact⟩
      refine ⟨k' + 1, by omega, ?_, ?_, ?_⟩
      · unfold scanActive
        rw [hp]
        dsimp only
        rw [hA, if_neg Bool.false_ne_true, hres, hmod]
        have : s + 1 + k' = s + (k' + 1) := by omega
        rw [this]
      · rw [show s + (k' + 1) = s + 1 + k' by omega, ← hmod]
        exact hact'
      · intro t ht
        cases t with
        | zero =>
          rw [Nat.add_zero, hmods]
          exact hAb
        | succ t' =>
          rw [show s + (t' + 1) = s + 1 + t' by omega, ← hmod]
          exact hskip' t' (by omega)

lemma exists_active_of_filter (ps : List Player)
    (h : ¬(ps.filter playerActive).length ≤ 1) :
    ∃ j, j < ps.length ∧ activeAtB ps j = true := by
  have hne : ps.filter playerActive ≠ [] := by
    intro h0
    rw [h0] at h
    simp at h
  obtain ⟨p, hp⟩ := List.exists_mem_of_ne_nil _ hne
  have hmem := List.mem_filter.1 hp
  obtain ⟨j, hj, hget⟩ := List.mem_iff_getElem.1 hmem.1
  refine ⟨j, hj, ?_⟩
  rw [activeAtB, List.getElem?_eq_getElem hj, hget]
  simp [hmem.2]

lemma exists_shift (s j n : Nat) (hs : s < n) (hj : j < n) :
    ∃ k, k < n ∧ (s + k) % n = j := by
  by_cases h : s ≤ j
  · exact ⟨j - s, by omega, by rw [show s + (j - s) = j by omega, Nat.mod_eq_of_lt hj]⟩
  · refine ⟨j + n - s, by omega, ?_⟩
    rw [show s + (j + n - s) = j + n by omega, Nat.add_mod_right, Nat.mod_eq_of_lt hj]

/-- The turn-advancement contract: if at most one active player remains the
index is unchanged; otherwise the new index is the first seat after the old
one, in circular order, holding a non-folded, still-playing player, and
every seat strictly between is folded or inactive. -/
def advancesFrom (old new : Game) : Prop :=
  if (new.players.filter playerActive).length ≤ 1 then
    new.currentPlayerIndex = old.currentPlayerIndex
  else ∃ k, 1 ≤ k ∧ k ≤ old.players.length ∧
    new.currentPlayerIndex = (old.currentPlayerIndex + k) % old.players.length ∧
    activeAtB new.players ((old.currentPlayerIndex + k) % old.players.length) = true ∧
    ∀ t, 1 ≤ t → t < k →
      activeAtB new.players ((old.currentPlayerIndex + t) % old.players.length) = false

lemma moveToNextPlayer_advancesFrom (old g1 : Game)
    (hlen : g1.players.length = old.players.length)
    (hcpi : g1.currentPlayerIndex = old.currentPlayerIndex) :
    advancesFrom old (moveToNextPlayer g1) := by
  by_cases hguard : (g1.players.filter playerActive).length ≤ 1
  · have hmv : moveToNextPlayer g1 = g1 := by
      unfold moveToNextPlayer
      rw [if_pos hguard]
    rw [hmv]
    unfold advancesFrom
    rw [if_pos hguard]
    exact hcpi
  · have hmv : moveToNextPlayer g1 = { g1 with currentPlayerIndex := scanActive g1.players ((g1.currentPlayerIndex + 1) % g1.players.length) g1.players.length } := by
      unfold moveToNextPlayer
      rw [if_neg hguard]
    rw [hmv]
    unfold advancesFrom
    dsimp only
    rw [if_neg hguard]
    obtain ⟨j, hj, hactj⟩ := exists_active_of_filter g1.players hguard
    have hlen0 : 0 < g1.players.length := by omega
    have hs : (g1.currentPlayerIndex + 1) % g1.players.length < g1.players.length :=
      Nat.mod_lt _ hlen0
    obtain ⟨k0, hk0, hk0eq⟩ :=
      exists_shift ((g1.currentPlayerIndex + 1) % g1.players.length) j _ hs hj
    obtain ⟨k, hk, hres, hact, hskip⟩ := scanActive_spec g1.players g1.players.length
      ((g1.currentPlayerIndex + 1) % g1.players.length) hs
      ⟨k0, hk0, by rw [hk0eq]; exact hactj⟩
    have hmod : ∀ t : Nat,
        ((g1.currentPlayerIndex + 1) % g1.players.length + t) % g1.players.length =
          (g1.currentPlayerIndex + (t + 1)) % g1.players.length := by
      intro t
      rw [Nat.mod_add_mod]
      have : g1.currentPlayerIndex + 1 + t = g1.currentPlayerIndex + (t + 1) := by omega
      rw [this]
    refine ⟨k + 1, by omega, by omega, ?_, ?_, ?_⟩
    · rw [hres, hmod k, hcpi, hlen]
    · rw [← hcpi, ← hlen, ← hmod k]
      exact hact
    · intro t h1t htk
      rw [← hcpi, ← hlen]
      have ht' : t - 1 < k := by omega
      have := hskip (t - 1) ht'
      rw [hmod (t - 1)] at this
      rw [show t - 1 + 1 = t by omega] at this
      exact this

lemma step_fold (g : Game) (users : Nat → UserSt) (i : Nat) (st : Step)
    (h : handleFold g users i = .ok st) :
    ∃ p, g.players[i]? = some p ∧
      st.game.gameHistory = g.gameHistory ++
        [⟨"fold", p.user, 0, (users p.user).username ++ " folded"⟩] ∧
      (st.game.status = .completed ∨ advancesFrom g st.game) := by
  unfold handleFold at h
  split at h
  · cases h
  · rename_i p hp
    dsimp only at h
    split at h
    · cases h
      refine ⟨p, hp, ?_, Or.inl ?_⟩
      · simp only [endGame, addToHistory]
      · simp only [endGame]
    · cases h
      refine ⟨p, hp, ?_, Or.inr ?_⟩
      · rw [moveToNextPlayer_gameHistory]
        simp only [addToHistory]
      · apply moveToNextPlayer_advancesFrom
        · simp only [addToHistory]
          exact List.length_set g.players i _
        · rfl

lemma step_call (g : Game) (users : Nat → UserSt) (i : Nat) (st : Step)
    (h : handleCall g users i = .ok st) :
    ∃ p, g.players[i]? = some p ∧
      st.game.gameHistory = g.gameHistory ++
        [⟨"call", p.user, g.currentBet - p.currentBet,
          (users p.user).username ++ " called " ++ toString (g.currentBet - p.currentBet)⟩] ∧
      advancesFrom g st.game := by
  unfold handleCall at h
  split at h
  · cases h
  · rename_i p hp
    dsimp only at h
    split at h
    · cases h
    · cases h
      refine ⟨p, hp, ?_, ?_⟩
      · rw [moveToNextPlayer_gameHistory]
        simp only [addToHistory]
      · apply moveToNextPlayer_advancesFrom
        · simp only [addToHistory]
          exact List.length_set g.players i _
        · rfl

lemma step_raise (g : Game) (users : Nat → UserSt) (i : Nat) (a : Int) (st : Step)
    (h : handleRaise g users i a = .ok st) :
    ∃ p, g.players[i]? = some p ∧
      st.game.gameHistory = g.gameHistory ++
        [⟨"raise", p.user, g.currentBet - p.currentBet + a,
          (users p.user).username ++ " raised by " ++ toString a⟩] ∧
      advancesFrom g st.game := by
  unfold handleRaise at h
  split at h
  · cases h
  · rename_i p hp
    dsimp only at h
    split at h
    · cases h
    · split at h
      · cases h
      · cases h
        refine ⟨p, hp, ?_, ?_⟩
        · rw [moveToNextPlayer_gameHistory]
          simp only [addToHistory]
        · apply moveToNextPlayer_advancesFrom
          · simp only [addToHistory]
            exact List.length_set g.players i _
          · rfl

lemma step_check (g : Game) (users : Nat → UserSt) (i : Nat) (st : Step)
    (h : handleCheck g users i = .ok st) :
    ∃ p, g.players[i]? = some p ∧
      st.game.gameHistory = g.gameHistory ++
        [⟨"check", p.user, 0, (users p.user).username ++ " checked"⟩] ∧
      advancesFrom g st.game := by
  unfold handleCheck at h
  split at h
  · cases h
  · rename_i p hp
    dsimp only at h
    split at h
    · cases h
    · cases h
      refine ⟨p, hp, ?_, ?_⟩
      · rw [moveToNextPlayer_gameHistory]
        simp only [addToHistory]
      · apply moveToNextPlayer_advancesFrom
        · simp only [addToHistory]
          exact List.length_set g.players i _
        · rfl

lemma step_show (g : Game) (users : Nat → UserSt) (i : Nat) (st : Step)
    (h : handleShow g users i = .ok st) :
    ∃ p, g.players[i]? = some p ∧
      st.game.gameHistory = g.gameHistory ++
        [⟨"show", p.user, 0, (users p.user).username ++ " showed cards"⟩] ∧
      st.game.currentPlayerIndex = g.currentPlayerIndex := by
  unfold handleShow at h
  split at h
  · cases h
  · rename_i p hp
    dsimp only at h
    cases h
    exact ⟨p, hp, by simp only [addToHistory], rfl⟩

lemma step_blind (g : Game) (users : Nat → UserSt) (i : Nat) (st : Step)
    (h : handleBlind g users i = .ok st) :
    ∃ p, g.players[i]? = some p ∧
      st.game.gameHistory = g.gameHistory ++
        [⟨"blind", p.user, g.minBet,
          (users p.user).username ++ " played blind for " ++ toString g.minBet⟩] ∧
      advancesFrom g st.game := by
  unfold handleBlind at h
  split at h
  · cases h
  · rename_i p hp
    dsimp only at h
    split at h
    · cases h
    · cases h
      refine ⟨p, hp, ?_, ?_⟩
      · rw [moveToNextPlayer_gameHistory]
        simp only [addToHistory]
      · apply moveToNextPlayer_advancesFrom
        · simp only [addToHistory]
          exact List.length_set g.players i _
        · rfl

/-- C4 (amended).  For every action that succeeds while the game is active
and does not end the round, exactly one history entry
`{action, player, amount, note}` is appended, with the action's name and the
acting player's id; for fold, call, raise, check and blind the
`currentPlayerIndex` then advances circularly to the next seat whose player
is non-folded and still playing, skipping exactly the folded/inactive
seats — but the show action, contrary to the original claim, never advances
the turn: `handleShow` is the one handler that does not call
`moveToNextPlayer`, so `currentPlayerIndex` is unchanged. -/
theorem C4_amended (g : Game) (users : Nat → UserSt) (uid : Nat) (act : GameAction)
    (hact : g.status = .active) :
    match handleGameAction g users uid act with
    | .ok st =>
        st.game.status = .active →
        (∃ e, st.game.gameHistory = g.gameHistory ++ [e] ∧
          e.action = actionName act ∧ e.player = uid) ∧
        (act ≠ .showCards → advancesFrom g st.game) ∧
        (act = .showCards → st.game.currentPlayerIndex = g.currentPlayerIndex)
    | .error _ => True := by
  unfold handleGameAction
  cases hfi : findIndex (fun p => p.user == uid) g.players with
  | none => trivial
  | some i =>
    dsimp only
    by_cases hturn : g.currentPlayerIndex ≠ i
    · rw [if_pos hturn]
      trivial
    · rw [if_neg hturn]
      obtain ⟨q, hq, hqu⟩ := findIndex_spec _ _ _ hfi
      have hqu' : q.user = uid := by simpa using hqu
      cases act with
      | fold =>
        dsimp only
        cases hh : handleFold g users i with
        | error e => trivial
        | ok st =>
          intro hst
          obtain ⟨p, hp, hhist, hdisj⟩ := step_fold g users i st hh
          rw [hp] at hq
          injection hq with hq
          subst hq
          refine ⟨⟨_, hhist, rfl, hqu'⟩, ?_, ?_⟩
          · intro _
            rcases hdisj with hc | ha
            · exact absurd (hst.symm.trans hc) (by decide)
            · exact ha
          · intro hcontra
            exact absurd hcontra (by decide)
      | call =>
        dsimp only
        cases hh : handleCall g users i with
        | error e => trivial
        | ok st =>
          intro hst
          obtain ⟨p, hp, hhist, hadv⟩ := step_call g users i st hh
          rw [hp] at hq
          injection hq with hq
          subst hq
          exact ⟨⟨_, hhist, rfl, hqu'⟩, fun _ => hadv,
            fun hcontra => absurd hcontra (by decide)⟩
      | raise amount =>
        dsimp only
        cases hh : handleRaise g users i amount with
        | error e => trivial
        | ok st =>
          intro hst
          obtain ⟨p, hp, hhist, hadv⟩ := step_raise g users i amount st hh
          rw [hp] at hq
          injection hq with hq
          subst hq
          exact ⟨⟨_, hhist, rfl, hqu'⟩, fun _ => hadv,
            fun hcontra => GameAction.noConfusion hcontra⟩
      | check =>
        dsimp only
        cases hh : handleCheck g users i with
        | error e => trivial
        | ok st =>
          intro hst
          obtain ⟨p, hp, hhist, hadv⟩ := step_check g users i st hh
          rw [hp] at hq
          injection hq with hq
          subst hq
          exact ⟨⟨_, hhist, rfl, hqu'⟩, fun _ => hadv,
            fun hcontra => absurd hcontra (by decide)⟩
      | showCards =>
        dsimp only
        cases hh : handleShow g users i with
        | error e => trivial
        | ok st =>
          intro hst
          obtain ⟨p, hp, hhist, hidx⟩ := step_show g users i st hh
          rw [hp] at hq
          injection hq with hq
          subst hq
          exact ⟨⟨_, hhist, rfl, hqu'⟩, fun hcontra => absurd rfl hcontra,
            fun _ => hidx⟩
      | blind =>
        dsimp only
        cases hh : handleBlind g users i with
        | error e => trivial
        | ok st =>
          intro hst
          obtain ⟨p, hp, hhist, hadv⟩ := step_blind g users i st hh
          rw [hp] at hq
          injection hq with hq
          subst hq
          exact ⟨⟨_, hhist, rfl, hqu'⟩, fun _ => hadv,
            fun hcontra => absurd hcontra (by decide)⟩

/-- Active two-player game (seats for users 5 and 7, both non-folded and
playing, seat 0 to act) used by the C4 and C6 theorems. -/
def gC4 : Game :=
  { g0 with
    status := .active
    players := [{ pNil with user := 5 }, { pNil with user := 7, position := 1 }] }

/-- C4 (counterexample).  The claim includes show among the actions that
advance `currentPlayerIndex` to the next non-folded, playing seat.  In `gC4`
(both seats active, seat 0 to act, so the next active seat is 1) a
successful show by the seat-0 player leaves `currentPlayerIndex` at 0. -/
theorem C4_counterexample :
    (handleGameAction gC4 usersNil 5 .showCards).map (fun st => st.game.currentPlayerIndex)
      = .ok 0 ∧
    gC4.currentPlayerIndex = 0 ∧
    (gC4.currentPlayerIndex + 1) % gC4.players.length = 1 ∧
    activeAtB gC4.players 1 = true ∧
    (0 : Nat) ≠ 1 := by
  exact ⟨rfl, rfl, by decide, by decide, by decide⟩

/-- Witness for C4 (amended) at the concrete game `gC4` with a call by the
seat-0 player (call amount 0, which succeeds and advances the turn). -/
theorem C4_amended_witness :
    gC4.status = .active ∧
    (match handleGameAction gC4 usersNil 5 .call with
     | .ok st =>
         st.game.status = .active →
         (∃ e, st.game.gameHistory = gC4.gameHistory ++ [e] ∧
           e.action = actionName .call ∧ e.player = 5) ∧
         (GameAction.call ≠ .showCards → advancesFrom gC4 st.game) ∧
         (GameAction.call = .showCards → st.game.currentPlayerIndex = gC4.currentPlayerIndex)
     | .error _ => True) :=
  ⟨rfl, C4_amended gC4 usersNil 5 .call rfl⟩

/-! ## Claim C6: rejected actions -/

/-- C6.  Every rejected action leaves the game completely unchanged and
fails with its specific error: a raise with amount outside
`[minBet, maxBet]`, a call or an in-range raise whose required payment
exceeds the player's chip balance, and a check while the player's
`currentBet` is below the table `currentBet` are each rejected with the
listed message.  In this embedding a handler returns `Except.error msg`
exactly when the source emits `msg` and returns before performing any
mutation, so the error results themselves certify that the game state, the
chip balances, `currentPlayerIndex` and the history are untouched. -/
theorem C6_rejected_actions (g : Game) (users : Nat → UserSt) (i : Nat) (p : Player)
    (a : Int) (hp : g.players[i]? = some p) :
    ((a < g.minBet ∨ a > g.maxBet) →
      handleRaise g users i a = .error ("Raise amount must be between "
        ++ toString g.minBet ++ " and " ++ toString g.maxBet)) ∧
    ((users p.user).chips < g.currentBet - p.currentBet →
      handleCall g users i = .error "Insufficient chips to call") ∧
    (¬(a < g.minBet ∨ a > g.maxBet) →
      (users p.user).chips < g.currentBet - p.currentBet + a →
      handleRaise g users i a = .error "Insufficient chips to raise") ∧
    (p.currentBet < g.currentBet →
      handleCheck g users i = .error "Cannot check - must call or raise") := by
  refine ⟨?_, ?_, ?_, ?_⟩
  · intro hrange
    unfold handleRaise
    rw [hp]
    simp [hrange]
  · intro hchips
    unfold handleCall
    rw [hp]
    simp [hchips]
  · intro hrange hchips
    unfold handleRaise
    rw [hp]
    simp [hrange, hchips]
  · intro hbet
    unfold handleCheck
    rw [hp]
    simp [hbet]

/-- User table in which every user holds 5 chips. -/
def usersPoor : Nat → UserSt :=
  fun _ => { username := "poor", chips := 5, gamesPlayed := 0, gamesWon := 0,
             totalChipsWon := 0, totalChipsLost := 0, currentGameId := none }

/-- `gC4` with a table bet of 10 to make calling cost 10 and checking
illegal for a player with `currentBet` 0. -/
def gC6 : Game := { gC4 with currentBet := 10 }

/-- Witness for C6: in `gC6` a raise of 5 (below `minBet` 10) is rejected
with the range error, and a call requiring 10 from a player holding 5 chips
is rejected with the funds error. -/
theorem C6_witness :
    handleRaise gC6 usersPoor 0 5 = .error ("Raise amount must be between "
      ++ toString gC6.minBet ++ " and " ++ toString gC6.maxBet) ∧
    handleCall gC6 usersPoor 0 = .error "Insufficient chips to call" :=
  ⟨(C6_rejected_actions gC6 usersPoor 0 { pNil with user := 5 } 5 rfl).1 (by decide),
   (C6_rejected_actions gC6 usersPoor 0 { pNil with user := 5 } 5 rfl).2.1 (by decide)⟩

/-! ## Claims C3 and C8: settlement -/

lemma foldl_updUser_chips (f : Player → UserSt → UserSt)
    (hf : ∀ p u, (f p u).chips = u.chips) (ps : List Player) (us : Nat → UserSt)
    (x : Nat) :
    ((ps.foldl (fun acc p => updUser acc p.user (f p)) us) x).chips = (us x).chips := by
  induction ps generalizing us with
  | nil => rfl
  | cons p ps ih =>
    simp only [List.foldl]
    rw [ih]
    unfold updUser
    split_ifs with hx
    · exact hf p _
    · rfl

lemma updUser_self (users : Nat → UserSt) (uid : Nat) (f : UserSt → UserSt) :
    updUser users uid f uid = f (users uid) := by
  unfold updUser
  rw [if_pos rfl]

lemma updUser_eq_of_ne (users : Nat → UserSt) (uid : Nat) (f : UserSt → UserSt)
    (x : Nat) (h : ¬ x = uid) : updUser users uid f x = users x := by
  unfold updUser
  rw [if_neg h]

/-- The game-loss fold never touches the winner's entry: every update it
performs is at a player id different from the winner's. -/
lemma lossFold_winner (wuser : Nat) (ps : List Player) :
    ∀ acc : (Nat → UserSt) × List Txn,
      (ps.foldl (lossStep wuser) acc).1 wuser = acc.1 wuser := by
  induction ps with
  | nil => intro acc; rfl
  | cons p ps ih =>
    intro acc
    simp only [List.foldl]
    rw [ih]
    unfold lossStep
    split_ifs with h1 h2
    · rfl
    · dsimp only
      exact updUser_eq_of_ne _ _ _ _ (fun he => h1.1 he.symm)
    · rfl

/-- The winner's balance after `endGame`: `updateChips` credits `winnings`
once, and the `game_win` transaction's balance write credits it again, for
a total of `2·winnings`; the stats loop and the game-loss fold never touch
the winner's chips. -/
lemma endGame_winner_chips (g : Game) (w : Player) (users : Nat → UserSt) :
    ((endGame g w users).users w.user).chips
      = (users w.user).chips + 2 * (g.pot - g.pot * 3 / 100) := by
  simp only [endGame]
  rw [lossFold_winner]
  dsimp only
  rw [updUser_self]
  dsimp only
  rw [foldl_updUser_chips
    (fun p u =>
      { u with
        gamesPlayed := u.gamesPlayed + 1
        totalChipsLost :=
          if p.user ≠ w.user then u.totalChipsLost + p.totalBet else u.totalChipsLost
        currentGameId := none })
    (fun p u => rfl)]
  rw [updUser_self]
  dsimp only
  ring

/-- C3 (amended).  `endGame` performs no completion check and is not
idempotent: invoked on a game whose status is already `completed`, it runs
the whole settlement again — the winner's balance rises by another
`2·(pot − ⌊pot·3/100⌋)` (the direct `updateChips` credit plus the
`game_win` transaction's balance write), every non-winning player with a
positive `totalBet` and sufficient balance is debited that `totalBet`
again by the `game_loss` transaction, and the settlement transactions are
emitted another time (the claim asserted a no-op or an `AlreadyCompleted`
failure, and in particular no second credit). -/
theorem C3_amended (g : Game) (w : Player) (users : Nat → UserSt)
    (hdone : g.status = .completed) :
    ((endGame g w users).users w.user).chips
        = (users w.user).chips + 2 * (g.pot - g.pot * 3 / 100) ∧
    (endGame g w users).game.status = .completed ∧
    (endGame g w users).txns ≠ [] := by
  refine ⟨endGame_winner_chips g w users, rfl, by simp [endGame]⟩

/-- Completed two-player game with pot 100 (total bets 40 + 60) already
settled in favour of user 7. -/
def gC3 : Game :=
  { g0 with
    status := .completed
    pot := 100
    currentBet := 10
    winner := some 7
    players :=
      [{ pNil with user := 7, totalBet := 40 },
       { pNil with user := 9, position := 1, totalBet := 60, isFolded := true, isPlaying := false }] }

/-- The seat-0 player of `gC3`, passed to `endGame` as winner. -/
def wC3 : Player := { pNil with user := 7, totalBet := 40 }

/-- C3 (counterexample).  Calling `endGame` on the already-completed `gC3`
(pot 100, commission ⌊100·0.03⌋ = 3, winnings 97) settles it again: the
winner is credited twice (chips 100 → 294: `updateChips` adds 97 and the
`game_win` transaction's balance write adds 97 again), the loser is debited
their 60-chip `totalBet` again (100 → 40), and the settlement transactions
are re-emitted — refuting the claimed idempotence. -/
theorem C3_counterexample :
    gC3.status = .completed ∧
    (usersNil 7).chips = 100 ∧ (usersNil 9).chips = 100 ∧
    ((endGame gC3 wC3 usersNil).users 7).chips = 294 ∧
    ((endGame gC3 wC3 usersNil).users 9).chips = 40 ∧
    (endGame gC3 wC3 usersNil).txns =
      [Txn.gameWin 7 97, Txn.commission 3, Txn.gameLoss 9 60] := by
  exact ⟨rfl, rfl, rfl, rfl, rfl, rfl⟩

/-- Witness for C3 (amended) at the completed game `gC3`. -/
theorem C3_amended_witness :
    gC3.status = .completed ∧
    (((endGame gC3 wC3 usersNil).users wC3.user).chips
        = (usersNil wC3.user).chips + 2 * (gC3.pot - gC3.pot * 3 / 100) ∧
     (endGame gC3 wC3 usersNil).game.status = .completed ∧
     (endGame gC3 wC3 usersNil).txns ≠ []) :=
  ⟨rfl, C3_amended gC3 wC3 usersNil rfl⟩

/-- Completed game with pot 20 for the C8 theorems. -/
def gC8 : Game := { gC3 with pot := 20 }

/-- C8 (counterexample).  The claim says settlement credits exactly
`winnings = pot − commission` to the winner, so a pot of 20 at the 3% rate
credits 20.  In the source the winner is credited twice — `updateChips`
adds the winnings and `createGameWinTransaction`'s balance write adds them
again — so at pot 20 the winner's balance rises by 40, not 20 (and the
loser is debited their `totalBet` again). -/
theorem C8_counterexample :
    gC8.pot = 20 ∧ gC8.pot * 3 / 100 = 0 ∧
    (usersNil 7).chips = 100 ∧
    ((endGame gC8 wC3 usersNil).users 7).chips = 140 ∧
    ((endGame gC8 wC3 usersNil).users 7).chips ≠ (usersNil 7).chips + 20 ∧
    ((endGame gC8 wC3 usersNil).users 9).chips = 40 := by
  exact ⟨rfl, rfl, rfl, rfl, by decide, rfl⟩

/-- C8 (amended).  Settlement computes `commission = ⌊pot · 3/100⌋` (the
default 3% rate) and `winnings = pot − commission`, and records a
`game_win` transaction for `winnings` followed by the commission
transaction — but it credits the winner `2·winnings`, not `winnings`: the
direct `updateChips(winnings, 'add')` and the `game_win` transaction's own
balance write each add `winnings`.  In particular a pot of 20 yields
commission 0 and a total credit of 40. -/
theorem C8_amended (g : Game) (w : Player) (users : Nat → UserSt) :
    ((endGame g w users).users w.user).chips
        = (users w.user).chips + 2 * (g.pot - g.pot * 3 / 100) ∧
    (endGame g w users).txns.head?
        = some (Txn.gameWin w.user (g.pot - g.pot * 3 / 100)) ∧
    (endGame g w users).txns[1]? = some (Txn.commission (g.pot * 3 / 100)) ∧
    (g.pot = 20 →
      g.pot * 3 / 100 = 0 ∧
      ((endGame g w users).users w.user).chips = (users w.user).chips + 40) := by
  refine ⟨endGame_winner_chips g w users, by simp [endGame], by simp [endGame], ?_⟩
  intro h20
  constructor
  · rw [h20]
    decide
  · rw [endGame_winner_chips g w users, h20]
    norm_num

/-- Witness for C8 (amended) at pot 20: commission 0, winner credited 40 in
total. -/
theorem C8_amended_witness :
    gC8.pot = 20 ∧ gC8.pot * 3 / 100 = 0 ∧
    ((endGame gC8 wC3 usersNil).users wC3.user).chips
        = (usersNil wC3.user).chips + 40 :=
  ⟨rfl, ((C8_amended gC8 wC3 usersNil).2.2.2 rfl).1,
    ((C8_amended gC8 wC3 usersNil).2.2.2 rfl).2⟩

/-! ## Claim C5: leaving a game -/

/-- Seat re-indexing after removal:
`players.forEach((player, index) => player.position = index)`. -/
def reindexFrom : Nat → List Player → List Player
  | _, [] => []
  | n, p :: ps => { p with position := n } :: reindexFrom (n + 1) ps

/-- `removePlayer(userId)` of the Game model: filter the player out,
re-index the remaining seats, and cancel an active game that has dropped
below two players. -/
def removePlayer (g : Game) (uid : Nat) : Game :=
  let players := reindexFrom 0 (g.players.filter fun p => p.user != uid)
  { g with
    players := players
    status := if players.length < 2 ∧ g.status = .active then .cancelled else g.status }

/-- The `/leave` route core.  In an `active` game the player is folded in
place (never removed) and the game completes — with the last non-folded
playing player recorded as winner — when only one such player remains;
otherwise (`waiting`, but also the terminal statuses) `removePlayer` runs.
The route performs no settlement on this completion path. -/
def leaveGame (g : Game) (uid : Nat) (users : Nat → UserSt) : Game :=
  if g.status = .active then
    match findIndex (fun p => p.user == uid) g.players with
    | none => g
    | some i =>
      match g.players[i]? with
      | none => g
      | some p =>
        let p' := { p with isFolded := true, isPlaying := false }
        let g1 := addToHistory { g with players := g.players.set i p' } "fold" uid 0
          ((users uid).username ++ " left the game (folded)")
        let active := g1.players.filter playerActive
        if active.length = 1 then
          { g1 with status := .completed, winner := (active[0]?).map Player.user }
        else g1
  else
    removePlayer g uid

lemma reindexFrom_map_user (n : Nat) (ps : List Player) :
    (reindexFrom n ps).map Player.user = ps.map Player.user := by
  induction ps generalizing n with
  | nil => rfl
  | cons p ps ih => simp [reindexFrom, ih]

lemma reindexFrom_length (n : Nat) (ps : List Player) :
    (reindexFrom n ps).length = ps.length := by
  induction ps generalizing n with
  | nil => rfl
  | cons p ps ih => simp [reindexFrom, ih]

lemma reindexFrom_map_position (n : Nat) (ps : List Player) :
    (reindexFrom n ps).map Player.position = List.range' n ps.length := by
  induction ps generalizing n with
  | nil => rfl
  | cons p ps ih => simp [reindexFrom, ih, List.range'_succ]

lemma getElem?_set_self (l : List Player) (i : Nat) (a : Player) (h : i < l.length) :
    (l.set i a)[i]? = some a := by
  induction l generalizing i with
  | nil => simp at h
  | cons q qs ih =>
    cases i with
    | zero => simp
    | succ j => simpa using ih j (by simpa using h)

/-- C5 (amended).  In a `waiting` game, leave removes the player and
re-indexes the remaining seats to consecutive positions `0..n-1`.  In an
`active` game, leave never removes the player: it marks them
folded/inactive in place and logs a fold entry, so the seat count and
`Σ totalBet` (the pot backing) are unchanged; and when exactly one
non-folded, playing player remains, the game transitions to `completed`
with that player as winner — not to `cancelled`, as the original claim
stated: the `cancelled` transition inside `removePlayer` is unreachable
from leave, because leave only removes players from non-active games. -/
theorem C5_amended (g : Game) (uid : Nat) (users : Nat → UserSt) :
    (g.status = .waiting →
      (leaveGame g uid users).players.map Player.user
          = (g.players.filter fun p => p.user != uid).map Player.user ∧
      (leaveGame g uid users).players.map Player.position
          = List.range (g.players.filter fun p => p.user != uid).length ∧
      (leaveGame g uid users).status = .waiting) ∧
    (g.status = .active →
      ∀ i p, findIndex (fun q => q.user == uid) g.players = some i →
        g.players[i]? = some p →
        (leaveGame g uid users).players.length = g.players.length ∧
        (leaveGame g uid users).players[i]?
            = some { p with isFolded := true, isPlaying := false } ∧
        sumTotalBet (leaveGame g uid users).players = sumTotalBet g.players ∧
        (∃ e, (leaveGame g uid users).gameHistory = g.gameHistory ++ [e] ∧
          e.action = "fold" ∧ e.player = uid) ∧
        (((leaveGame g uid users).players.filter playerActive).length = 1 →
          (leaveGame g uid users).status = .completed ∧
          ∃ w, ((leaveGame g uid users).players.filter playerActive)[0]? = some w ∧
            (leaveGame g uid users).winner = some w.user) ∧
        (((leaveGame g uid users).players.filter playerActive).length ≠ 1 →
          (leaveGame g uid users).status = .active)) := by
  constructor
  · intro hw
    have hna : ¬ g.status = .active := by rw [hw]; decide
    unfold leaveGame
    rw [if_neg hna]
    unfold removePlayer
    dsimp only
    refine ⟨reindexFrom_map_user 0 _, ?_, ?_⟩
    · rw [reindexFrom_map_position, List.range_eq_range']
    · rw [if_neg (by simp [hw])]
      exact hw
  · intro ha i p hfi hp
    unfold leaveGame
    rw [if_pos ha, hfi]
    dsimp only
    rw [hp]
    dsimp only
    have hiLt : i < g.players.length := by
      by_contra hcontra
      rw [List.getElem?_eq_none (by omega)] at hp
      cases hp
    split_ifs with hone
    · refine ⟨?_, ?_, ?_, ?_, ?_, ?_⟩
      · simp only [addToHistory]
        exact List.length_set g.players i _
      · simp only [addToHistory]
        exact getElem?_set_self g.players i _ hiLt
      · simp only [addToHistory]
        rw [sumTotalBet_set g.players i _ _ hp]
        dsimp only
        omega
      · exact ⟨⟨"fold", uid, 0, (users uid).username ++ " left the game (folded)"⟩,
          by simp only [addToHistory], rfl, rfl⟩
      · intro _
        obtain ⟨w, hw⟩ := List.length_eq_one.mp hone
        refine ⟨rfl, w, ?_, ?_⟩
        · dsimp only
          rw [hw]
          simp
        · dsimp only
          rw [hw]
          simp
      · intro hne
        exact absurd hone hne
    · refine ⟨?_, ?_, ?_, ?_, ?_, ?_⟩
      · simp only [addToHistory]
        exact List.length_set g.players i _
      · simp only [addToHistory]
        exact getElem?_set_self g.players i _ hiLt
      · simp only [addToHistory]
        rw [sumTotalBet_set g.players i _ _ hp]
        dsimp only
        omega
      · exact ⟨⟨"fold", uid, 0, (users uid).username ++ " left the game (folded)"⟩,
          by simp only [addToHistory], rfl, rfl⟩
      · intro h1
        exact absurd h1 hone
      · intro _
        exact ha

/-- C5 (counterexample).  The claim states that an active game transitions
to `cancelled` when fewer than 2 players remain.  In the active two-player
game `gC4`, user 7 leaving folds them in place (the seat count stays 2) and
the game transitions to `completed` with user 5 as winner — never to
`cancelled`. -/
theorem C5_counterexample :
    gC4.status = .active ∧
    (leaveGame gC4 7 usersNil).players.length = 2 ∧
    (leaveGame gC4 7 usersNil).status = .completed ∧
    (leaveGame gC4 7 usersNil).status ≠ .cancelled ∧
    (leaveGame gC4 7 usersNil).winner = some 5 := by
  exact ⟨rfl, rfl, rfl, by decide, rfl⟩

/-- Waiting two-player game for the C5 witness. -/
def gW : Game :=
  { g0 with players := [{ pNil with user := 5 }, { pNil with user := 7, position := 1 }] }

/-- Witness for C5 (amended), applied to the waiting game `gW` (user 5
leaves and the seats re-index) and to the active game `gC4` (user 7 leaves
and is folded in place). -/
theorem C5_amended_witness :
    gW.status = .waiting ∧ gC4.status = .active ∧
    ((leaveGame gW 5 usersNil).players.map Player.user
        = (gW.players.filter fun p => p.user != 5).map Player.user ∧
      (leaveGame gW 5 usersNil).players.map Player.position
        = List.range (gW.players.filter fun p => p.user != 5).length ∧
      (leaveGame gW 5 usersNil).status = .waiting) ∧
    ((leaveGame gC4 7 usersNil).players.length = gC4.players.length ∧
      (leaveGame gC4 7 usersNil).players[1]?
        = some { { pNil with user := 7, position := 1 } with
                 isFolded := true, isPlaying := false } ∧
      sumTotalBet (leaveGame gC4 7 usersNil).players = sumTotalBet gC4.players ∧
      (∃ e, (leaveGame gC4 7 usersNil).gameHistory = gC4.gameHistory ++ [e] ∧
        e.action = "fold" ∧ e.player = 7) ∧
      (((leaveGame gC4 7 usersNil).players.filter playerActive).length = 1 →
        (leaveGame gC4 7 usersNil).status = .completed ∧
        ∃ w, ((leaveGame gC4 7 usersNil).players.filter playerActive)[0]? = some w ∧
          (leaveGame gC4 7 usersNil).winner = some w.user) ∧
      (((leaveGame gC4 7 usersNil).players.filter playerActive).length ≠ 1 →
        (leaveGame gC4 7 usersNil).status = .active)) :=
  ⟨rfl, rfl, (C5_amended gW 5 usersNil).1 rfl,
    (C5_amended gC4 7 usersNil).2 rfl 1 { pNil with user := 7, position := 1 } rfl rfl⟩

/-! ## Claim C7: dealing

`dealCards` in the source builds a fresh deck with `createDeck`, shuffles it
with `shuffleDeck` (Fisher–Yates over `Math.random`, modelled here as an
arbitrary permutation parameter `shuffle` applied to the fresh deck), stores
it in `game.deck` and then `pop()`s three cards per player from the end of
the array.  Popping from the end is modelled by reversing the deck into a
top-first stack, taking from the front, and reversing the remainder back
into `deck`.  There is no exhaustion check: with more than 17 players the JS
`pop()` returns `undefined` and the subsequent `evaluateHand` throws a
`TypeError` reading `rank` of `undefined` — modelled as the error branch
(the mutation of earlier players before the throw is never saved). -/

/-- Three pops from the top-first stack, or `none` when fewer than three
cards remain (the JS would push `undefined` into the hand and then throw in
`evaluateHand`). -/
def deal3 (stack : List Card) : Option (List Card × List Card) :=
  match stack with
  | c1 :: c2 :: c3 :: rest => some ([c1, c2, c3], rest)
  | _ => none

/-- The `players.forEach` dealing loop: give each player three cards off
the top and compute their `handRank` and `handValue`. -/
def dealLoop : List Player → List Card → Except String (List Player × List Card)
  | [], stack => .ok ([], stack)
  | p :: rest, stack =>
    match deal3 stack with
    | none => .error "TypeError: cannot read rank of undefined"
    | some (hand, stack') =>
      match dealLoop rest stack' with
      | .error e => .error e
      | .ok (rest', stack'') =>
        .ok ({ p with
                cards := hand
                handRank := evaluateHand hand
                handValue := getHandValue hand (evaluateHand hand) } :: rest', stack'')

/-- `dealCards()` of the Game model. -/
def dealCards (shuffle : List Card → List Card) (g : Game) : Except String Game :=
  match dealLoop g.players (shuffle createDeck).reverse with
  | .error e => .error e
  | .ok (players', stack') => .ok { g with deck := stack'.reverse, players := players' }

lemma dealLoop_ok (players : List Player) (stack : List Card)
    (h : 3 * players.length ≤ stack.length) :
    ∃ players' stack', dealLoop players stack = .ok (players', stack') ∧
      (players'.map Player.cards).flatten ++ stack' = stack ∧
      players'.length = players.length ∧
      ∀ q ∈ players', q.cards.length = 3 := by
  induction players generalizing stack with
  | nil => exact ⟨[], stack, rfl, by simp, rfl, by simp⟩
  | cons p rest ih =>
    match stack with
    | [] => simp at h
    | [c1] => simp at h; omega
    | [c1, c2] => simp at h; omega
    | c1 :: c2 :: c3 :: s =>
      have hlen : 3 * rest.length ≤ s.length := by
        simp only [List.length_cons] at h ⊢
        omega
      obtain ⟨ps', st', hok, hjoin, hplen, hcards⟩ := ih s hlen
      refine ⟨{ p with
          cards := [c1, c2, c3]
          handRank := evaluateHand [c1, c2, c3]
          handValue := getHandValue [c1, c2, c3] (evaluateHand [c1, c2, c3]) } :: ps',
        st', ?_, ?_, ?_, ?_⟩
      · unfold dealLoop deal3
        dsimp only
        rw [hok]
      · simp only [List.map_cons, List.flatten_cons]
        rw [List.append_assoc, hjoin]
        rfl
      · simp [hplen]
      · intro q hq
        rcases List.mem_cons.1 hq with rfl | hq'
        · rfl
        · exact hcards q hq'

/-- C7 (amended).  Dealing always rebuilds a fresh 52-card shuffled deck
(whatever `game.deck` held before), removes exactly 3 cards per player from
its top, in seat order and without replacement — the dealt hands followed
by the rest of the deck reconstitute the shuffled deck — and leaves the
remainder in `game.deck`.  There is no `DeckExhausted` failure: whenever
`3·n` cards are available (always, since games hold at most 6 players and
the fresh deck has 52), dealing succeeds. -/
theorem C7_amended (shuffle : List Card → List Card) (g : Game)
    (h : 3 * g.players.length ≤ (shuffle createDeck).length) :
    ∃ g', dealCards shuffle g = .ok g' ∧
      (g'.players.map Player.cards).flatten ++ g'.deck.reverse
          = (shuffle createDeck).reverse ∧
      g'.players.length = g.players.length ∧
      ∀ q ∈ g'.players, q.cards.length = 3 := by
  obtain ⟨ps', st', hok, hjoin, hplen, hcards⟩ :=
    dealLoop_ok g.players (shuffle createDeck).reverse
      (by rw [List.length_reverse]; exact h)
  refine ⟨{ g with deck := st'.reverse, players := ps' }, ?_, ?_, hplen, hcards⟩
  · unfold dealCards
    rw [hok]
  · dsimp only
    rw [List.reverse_reverse]
    exact hjoin

/-- `gC4` with an emptied `deck` field: by the claim, dealing should fail
(`0 < 2·3` cards remain). -/
def gC7 : Game := { gC4 with deck := [] }

/-- C7 (counterexample).  The claim says dealing fails with `DeckExhausted`
whenever fewer than `n·3` cards remain in the deck.  With `gC7.deck` empty
and two players, `dealCards` nevertheless succeeds — it ignores the stored
deck and deals 3 cards to each player from a freshly rebuilt 52-card deck,
leaving 46. -/
theorem C7_counterexample :
    gC7.deck.length = 0 ∧ gC7.players.length = 2 ∧
    (dealCards id gC7).map (fun g' => g'.players.map fun q => q.cards.length)
      = .ok [3, 3] ∧
    (dealCards id gC7).map (fun g' => g'.deck.length) = .ok 46 := by
  exact ⟨rfl, rfl, rfl, rfl⟩

/-- Witness for C7 (amended) with the identity shuffle on the two-player
game `gC4`. -/
theorem C7_amended_witness :
    3 * gC4.players.length ≤ (id createDeck).length ∧
    (∃ g', dealCards id gC4 = .ok g' ∧
      (g'.players.map Player.cards).flatten ++ g'.deck.reverse
          = (id createDeck).reverse ∧
      g'.players.length = gC4.players.length ∧
      ∀ q ∈ g'.players, q.cards.length = 3) :=
  ⟨by decide, C7_amended id gC4 (by decide)⟩

/-! ## Claim C9: the client presentation filter -/

/-- A card as it appears in a client view: either the real card or the
`{hidden: true}` placeholder that `formatGameForClient` substitutes. -/
inductive CardView where
  | hidden
  | visible (c : Card)
deriving DecidableEq, Repr

/-- A player as sent to a client: the fields pass through unchanged except
that the hand becomes a list of `CardView`s. -/
structure ClientPlayer where
  user : Nat
  position : Nat
  cards : List CardView
  handRank : HandRank
  handValue : Nat
  isPlaying : Bool
  isFolded : Bool
  isBlind : Bool
  currentBet : Int
  totalBet : Int
deriving DecidableEq, Repr

/-- `formatGameForClient(game, userId)`: copy the game and replace every
OTHER player's cards with an array of `{hidden: true}` placeholders of the
same length; the viewer's own cards pass through.  The source applies no
other condition — in particular it never consults `isBlind` or
`lastAction`, so a player who has shown their cards is still hidden. -/
def formatGameForClient (g : Game) (userId : Nat) : List ClientPlayer :=
  g.players.map fun p =>
    { user := p.user
      position := p.position
      cards :=
        if p.user = userId then p.cards.map CardView.visible
        else List.replicate p.cards.length CardView.hidden
      handRank := p.handRank
      handValue := p.handValue
      isPlaying := p.isPlaying
      isFolded := p.isFolded
      isBlind := p.isBlind
      currentBet := p.currentBet
      totalBet := p.totalBet }

/-- Active game in which the seat-1 player (user 7) has performed the show
action (`isBlind = false`, `lastAction = "show"`) and holds three known
cards. -/
def gC9 : Game :=
  { g0 with
    status := .active
    players :=
      [{ pNil with user := 5, cards := [⟨.hearts, .two⟩, ⟨.clubs, .five⟩, ⟨.spades, .nine⟩] },
       { pNil with user := 7, position := 1, isBlind := false, lastAction := some "show", cards := [⟨.hearts, .ace⟩, ⟨.hearts, .king⟩, ⟨.hearts, .jack⟩] }] }

/-- C9 (counterexample).  The claim says a player who has performed show
has their actual cards visible in other players' views.  In `gC9`, user 7
has shown, yet the view formatted for user 5 still replaces user 7's hand
with three hidden placeholders. -/
theorem C9_counterexample :
    (gC9.players[1]?.map Player.isBlind) = some false ∧
    (gC9.players[1]?.map Player.lastAction) = some (some "show") ∧
    ((formatGameForClient gC9 5)[1]?.map ClientPlayer.cards)
      = some [CardView.hidden, CardView.hidden, CardView.hidden] ∧
    ((formatGameForClient gC9 5)[1]?.map ClientPlayer.cards)
      ≠ some ([⟨.hearts, .ace⟩, ⟨.hearts, .king⟩, ⟨.hearts, .jack⟩].map CardView.visible) := by
  exact ⟨rfl, rfl, by decide, by decide⟩

/-- C9 (amended).  For every game and viewing player id, the formatted view
keeps every player's identity and seat, shows the viewer their own cards,
and replaces every other player's hand by count-only placeholders —
unconditionally: no show action ever makes another player's cards visible
through this filter (shown cards reach clients only through the separate
`player_action` broadcast of `handleShow`). -/
theorem C9_amended (g : Game) (userId : Nat) (i : Nat) (p : Player)
    (hp : g.players[i]? = some p) :
    ∃ cp, (formatGameForClient g userId)[i]? = some cp ∧
      cp.user = p.user ∧ cp.position = p.position ∧
      (p.user = userId → cp.cards = p.cards.map CardView.visible) ∧
      (p.user ≠ userId → cp.cards = List.replicate p.cards.length CardView.hidden) := by
  unfold formatGameForClient
  rw [List.getElem?_map, hp]
  refine ⟨_, rfl, rfl, rfl, ?_, ?_⟩
  · intro hme
    dsimp only
    rw [if_pos hme]
  · intro hother
    dsimp only
    rw [if_neg hother]

/-- Witness for C9 (amended) in `gC9`: the view for user 5 of the shown
player 7. -/
theorem C9_amended_witness :
    gC9.players[1]? = some { pNil with user := 7, position := 1, isBlind := false, lastAction := some "show", cards := [⟨.hearts, .ace⟩, ⟨.hearts, .king⟩, ⟨.hearts, .jack⟩] } ∧
    (∃ cp, (formatGameForClient gC9 5)[1]? = some cp ∧
      cp.user = 7 ∧ cp.position = 1 ∧
      ((7 : Nat) = 5 →
        cp.cards = [Card.mk .hearts .ace, Card.mk .hearts .king,
          Card.mk .hearts .jack].map CardView.visible) ∧
      ((7 : Nat) ≠ 5 → cp.cards = List.replicate 3 CardView.hidden)) :=
  ⟨rfl, C9_amended gC9 5 1 _ rfl⟩
